import Mathlib

/-!
Verification of the MSP430 cooperative scheduler examples.

The definitions below are shallow embeddings of the C sources:
`scheduler.c` (pending-counter dispatcher), `phase_offset.c`
(phase-offset dispatcher), `time_slices.c` (pending-counter dispatcher with
slice self-check), and `scheduler_generator.c` (offline table planner).
Machine integers are modelled as `Nat` with explicit `% 2^32` / `% 2^16`
where the C arithmetic wraps.
-/

/-! ## Signed 32-bit difference helpers (time_slices.c TIME_EXPIRED, phase_offset.c due test) -/

/-- Two's-complement reinterpretation of a 32-bit value as a signed integer,
modelling the C cast `(int32_t)x` of a `uint32_t` value. -/
def toInt32 (x : Nat) : Int :=
  if x % 2 ^ 32 < 2 ^ 31 then ((x % 2 ^ 32 : Nat) : Int)
  else ((x % 2 ^ 32 : Nat) : Int) - 2 ^ 32

/-- Wrapping 32-bit subtraction `a - b` on `uint32_t` operands. -/
def u32sub (a b : Nat) : Nat :=
  (a % 2 ^ 32 + (2 ^ 32 - b % 2 ^ 32)) % 2 ^ 32

/-- Embedding of the macro `TIME_EXPIRED(start, limit)` from time_slices.c line 50:
`((int32_t)((ms_ticks) - (start)) >= (int32_t)(limit))`, with `ms_ticks` passed
explicitly as `now`. -/
def TIME_EXPIRED (now start limit : Nat) : Bool :=
  decide (toInt32 limit ≤ toInt32 (u32sub now start))

/-- Embedding of the due test from phase_offset.c line 121:
`(int32_t)(now_ms - tasks[i].next_run_ms) >= 0`. -/
def dueTest (now next : Nat) : Bool :=
  decide (0 ≤ toInt32 (u32sub now next))

namespace PhaseOffset

/-- Task descriptor of phase_offset.c (`task_t`): function pointer (0 = NULL),
period, slice, phase offset and next absolute activation time, all `uint32_t`. -/
structure Task where
  fn : Nat
  period_ms : Nat
  slice_ms : Nat
  phase_offset_ms : Nat
  next_run_ms : Nat
deriving DecidableEq, Repr

/-- Embedding of `scheduler_register_task` from phase_offset.c lines 67-77.
Note the source checks only `task_count >= MAX_TASKS`; a null callable or a
zero period is accepted.  `next_run_ms` is initialized to `phase_offset_ms`. -/
def scheduler_register_task (ts : List Task) (fn period_ms slice_ms phase_offset_ms : Nat) :
    Int × List Task :=
  if 8 ≤ ts.length then (-1, ts)
  else (0, ts ++ [⟨fn, period_ms, slice_ms, phase_offset_ms, phase_offset_ms⟩])

/-- Embedding of the dispatch update from phase_offset.c line 127:
`tasks[i].next_run_ms += tasks[i].period_ms`, wrapping at 2^32. -/
def dispatchUpdate (t : Task) : Task :=
  { t with next_run_ms := (t.next_run_ms + t.period_ms) % 2 ^ 32 }

theorem dispatchUpdate_iterate (t : Task) (h : t.next_run_ms < 2 ^ 32) :
    ∀ k : Nat, dispatchUpdate^[k] t =
      { t with next_run_ms := (t.next_run_ms + k * t.period_ms) % 2 ^ 32 } := by
  intro k
  induction k with
  | zero =>
      have hmod : t.next_run_ms % 4294967296 = t.next_run_ms :=
        Nat.mod_eq_of_lt (by omega)
      simp [hmod]
  | succ n ih =>
      rw [Function.iterate_succ_apply', ih]
      simp only [dispatchUpdate, Nat.mod_add_mod]
      congr 1
      ring_nf

end PhaseOffset

/-- C4: Phase-offset zero drift.  Registration (phase_offset.c lines 67-77)
stores `next_run_ms = phase_offset_ms`, and each dispatch (line 127) adds
exactly `period_ms`; hence after `k` dispatches `next_run_ms` equals
`phase_offset_ms + k * period_ms` (modulo the 32-bit representation). -/
theorem phase_offset_zero_drift (ts : List PhaseOffset.Task)
    (fn period slice phase : Nat) (hphase : phase < 2 ^ 32) (hlen : ts.length < 8) :
    (PhaseOffset.scheduler_register_task ts fn period slice phase).2 =
      ts ++ [⟨fn, period, slice, phase, phase⟩] ∧
    ∀ k : Nat,
      (PhaseOffset.dispatchUpdate^[k] ⟨fn, period, slice, phase, phase⟩).next_run_ms =
        (phase + k * period) % 2 ^ 32 := by
  constructor
  · simp [PhaseOffset.scheduler_register_task, Nat.not_le.mpr hlen]
  · intro k
    rw [PhaseOffset.dispatchUpdate_iterate _ hphase k]

/-- Witness for `phase_offset_zero_drift` at the repository's second task
(period 100, slice 5, phase 2): after 3 dispatches `next_run_ms = 302`. -/
theorem phase_offset_zero_drift_witness :
    (PhaseOffset.scheduler_register_task [] 1 100 5 2).2 =
      [⟨1, 100, 5, 2, 2⟩] ∧
    (PhaseOffset.dispatchUpdate^[3] ⟨1, 100, 5, 2, 2⟩).next_run_ms = (2 + 3 * 100) % 2 ^ 32 := by
  have h := phase_offset_zero_drift [] 1 100 5 2 (by decide) (by decide)
  exact ⟨h.1, h.2 3⟩

/-- C5: Signed-difference wrap correctness.  With `start < 2^32` and a true
elapsed time `e` within one half-range of the counter, the due test of
phase_offset.c line 121 answers `true` exactly when the activation time has
been reached (parts 1 and 2, the second taking a `next_run_ms` that lies
`e` ticks in the future), and `TIME_EXPIRED` of time_slices.c line 50
agrees with the mathematical comparison `limit ≤ e`; this holds also when
`now` has wrapped past 2^32. -/
theorem signed_diff_wrap_correct :
    (∀ s e : Nat, s < 2 ^ 32 → e < 2 ^ 31 → dueTest ((s + e) % 2 ^ 32) s = true) ∧
    (∀ s e : Nat, s < 2 ^ 32 → 0 < e → e ≤ 2 ^ 31 → dueTest s ((s + e) % 2 ^ 32) = false) ∧
    (∀ s e lim : Nat, s < 2 ^ 32 → e < 2 ^ 31 → lim < 2 ^ 31 →
      TIME_EXPIRED ((s + e) % 2 ^ 32) s lim = decide (lim ≤ e)) := by
  refine ⟨?_, ?_, ?_⟩ <;> intros <;>
    simp only [dueTest, TIME_EXPIRED, toInt32, u32sub, decide_eq_true_eq,
      decide_eq_false_iff_not, decide_eq_decide] <;>
    split_ifs <;> omega

/-- Witness for `signed_diff_wrap_correct` at the wrap point: `start` three
ticks below 2^32, elapsed 10 ticks (so `now` has wrapped to 7), a pending
activation 5 ticks ahead, and a slice limit of 2 ms. -/
theorem signed_diff_wrap_correct_witness :
    dueTest ((2 ^ 32 - 3 + 10) % 2 ^ 32) (2 ^ 32 - 3) = true ∧
    dueTest (2 ^ 32 - 3) ((2 ^ 32 - 3 + 5) % 2 ^ 32) = false ∧
    TIME_EXPIRED ((2 ^ 32 - 3 + 10) % 2 ^ 32) (2 ^ 32 - 3) 2 = decide ((2 : Nat) ≤ 10) :=
  ⟨signed_diff_wrap_correct.1 (2 ^ 32 - 3) 10 (by decide) (by decide),
   signed_diff_wrap_correct.2.1 (2 ^ 32 - 3) 5 (by decide) (by decide) (by decide),
   signed_diff_wrap_correct.2.2 (2 ^ 32 - 3) 10 2 (by decide) (by decide) (by decide)⟩

namespace Scheduler

/-- Task descriptor of scheduler.c (`task_t`): function pointer (0 = NULL),
period in ms (`uint32_t`) and the pending counter (`uint16_t`). -/
structure Task where
  fn : Nat
  period_ms : Nat
  pending : Nat
deriving DecidableEq, Repr

/-- Embedding of `scheduler_register_task` from scheduler.c lines 40-48:
reject a null callable, a zero period, or a full table, returning -1 and
leaving the table unchanged; otherwise append the descriptor with
`pending = 0` and return 0. -/
def scheduler_register_task (ts : List Task) (fn period_ms : Nat) : Int × List Task :=
  if fn = 0 ∨ period_ms = 0 ∨ 8 ≤ ts.length then (-1, ts)
  else (0, ts ++ [⟨fn, period_ms, 0⟩])

/-- Embedding of the drain phase of scheduler.c lines 160-175 (and the
identical loop of time_slices.c lines 254-271): walk the table in order,
snapshot each `pending` into `run_cnt`, zero it, and call `fn` that many
times.  The second component is the trace of function calls, in order. -/
def drain : List Task → List Task × List Nat
  | [] => ([], [])
  | t :: rest =>
      let run_cnt := t.pending
      let p := drain rest
      ({ t with pending := 0 } :: p.1, List.replicate run_cnt t.fn ++ p.2)

/-- Per-task body of `Timer0_A0_ISR` (scheduler.c lines 101-109, time_slices.c
lines 196-207): increment the `uint16_t` accumulator `local_ms[i]`, and when
it reaches `(uint16_t)period_ms` reset it and saturating-increment `pending`
below the ceiling 0xFFFF. -/
def isrTaskStep (acc pending period : Nat) : Nat × Nat :=
  let acc' := (acc + 1) % 65536
  if period % 65536 ≤ acc' then (0, if pending < 65535 then pending + 1 else pending)
  else (acc', pending)

/-- Accumulator and pending value of one task after `m` ticks of the ISR,
starting from the zero-initialized `local_ms` and `pending`. -/
def isrTicks (period : Nat) : Nat → Nat × Nat
  | 0 => (0, 0)
  | m + 1 =>
      let s := isrTicks period m
      isrTaskStep s.1 s.2 period

theorem min_succ_lt (a : Nat) (h : a < 65535) : min a 65535 + 1 = min (a + 1) 65535 := by
  omega

theorem min_succ_ge (a : Nat) (h : 65535 ≤ a) : min a 65535 = min (a + 1) 65535 := by
  omega

theorem isrTicks_pos (period : Nat) (hp : 0 < period % 65536) :
    ∀ m : Nat, isrTicks period m = (m % (period % 65536), min (m / (period % 65536)) 65535) := by
  have hqlt : period % 65536 < 65536 := by omega
  intro m
  induction m with
  | zero => simp [isrTicks, Nat.zero_mod, Nat.zero_div]
  | succ n ih =>
      rw [isrTicks, ih]
      have hrlt : n % (period % 65536) < period % 65536 := Nat.mod_lt _ hp
      have hacc : (n % (period % 65536) + 1) % 65536 = n % (period % 65536) + 1 :=
        Nat.mod_eq_of_lt (by omega)
      have hd := Nat.div_add_mod n (period % 65536)
      rcases Nat.lt_or_ge (n % (period % 65536) + 1) (period % 65536) with hlt | hge
      · have h2 : n + 1 =
            (period % 65536) * (n / (period % 65536)) + (n % (period % 65536) + 1) := by omega
        have hmod : (n + 1) % (period % 65536) = n % (period % 65536) + 1 := by
          rw [h2, Nat.mul_add_mod]
          exact Nat.mod_eq_of_lt hlt
        have hdiv : (n + 1) / (period % 65536) = n / (period % 65536) := by
          rw [h2, Nat.mul_add_div hp, Nat.div_eq_of_lt hlt, Nat.add_zero]
        simp only [isrTaskStep, hacc, hmod, hdiv]
        rw [if_neg (by omega)]
      · have hms : (period % 65536) * (n / (period % 65536) + 1)
            = (period % 65536) * (n / (period % 65536)) + (period % 65536) := by ring
        have hsplit : n + 1 = (period % 65536) * (n / (period % 65536) + 1) := by omega
        have hmod : (n + 1) % (period % 65536) = 0 := by rw [hsplit, Nat.mul_mod_right]
        have hdiv : (n + 1) / (period % 65536) = n / (period % 65536) + 1 := by
          rw [hsplit, Nat.mul_div_cancel_left _ hp]
        simp only [isrTaskStep, hacc, hmod, hdiv]
        rw [if_pos (by omega)]
        simp only [Prod.mk.injEq, true_and]
        by_cases hc : n / (period % 65536) < 65535
        · rw [if_pos (by omega)]
          exact min_succ_lt _ hc
        · rw [if_neg (by omega)]
          exact min_succ_ge _ (by omega)

theorem isrTicks_multiple (period : Nat) (hp : period % 65536 = 0) :
    ∀ m : Nat, isrTicks period m = (0, min m 65535) := by
  intro m
  induction m with
  | zero => simp [isrTicks]
  | succ n ih =>
      rw [isrTicks, ih]
      simp only [isrTaskStep, hp]
      rw [if_pos (Nat.zero_le _)]
      rcases Nat.lt_or_ge n 65535 with hlt | hge
      · rw [if_pos (by omega)]
        simp only [Prod.mk.injEq, true_and]
        omega
      · rw [if_neg (by omega)]
        simp only [Prod.mk.injEq, true_and]
        omega

end Scheduler

/-- C1: Drain idempotence.  For any task table, the drain loop of
scheduler.c lines 160-175 leaves every pending counter at 0, changes no
other field, and the produced call trace is, in table order, exactly
`pending` invocations of each task's `fn` (so a task with `pending = n` is
invoked exactly `n` times).  Ticks arriving during the drain are not
modelled here; the interleaved machine below covers them. -/
theorem scheduler_drain_idempotent (ts : List Scheduler.Task) :
    (∀ t ∈ (Scheduler.drain ts).1, t.pending = 0) ∧
    (Scheduler.drain ts).1 = ts.map (fun t => { t with pending := 0 }) ∧
    (Scheduler.drain ts).2 = ts.flatMap (fun t => List.replicate t.pending t.fn) := by
  have hmap : (Scheduler.drain ts).1 = ts.map (fun t => { t with pending := 0 }) ∧
      (Scheduler.drain ts).2 = ts.flatMap (fun t => List.replicate t.pending t.fn) := by
    induction ts with
    | nil => simp [Scheduler.drain]
    | cons t rest ih =>
        constructor
        · simp only [Scheduler.drain, List.map_cons]
          rw [ih.1]
        · simp only [Scheduler.drain, List.flatMap_cons]
          rw [ih.2]
  refine ⟨?_, hmap.1, hmap.2⟩
  intro u hu
  rw [hmap.1] at hu
  rcases List.mem_map.mp hu with ⟨v, _, hv⟩
  rw [← hv]

/-- C9: Implicit 16-bit period truncation.  Registration (scheduler.c lines
40-48) accepts every nonzero 32-bit period, but the ISR (scheduler.c lines
101-109, time_slices.c lines 196-207) compares the 16-bit accumulator
against `(uint16_t)period_ms`, so after `m` ticks a task has accumulated
`min (m / (period % 2^16)) 0xFFFF` pending invocations — the effective
period is `period mod 2^16` — and a task whose period is a nonzero multiple
of 2^16 gains one pending invocation on every single tick. -/
theorem period_truncation_16bit :
    (∀ (ts : List Scheduler.Task) (fn period : Nat), fn ≠ 0 → period ≠ 0 → ts.length < 8 →
      (Scheduler.scheduler_register_task ts fn period).1 = 0) ∧
    (∀ period m : Nat, 65536 ≤ period → 0 < period % 65536 →
      (Scheduler.isrTicks period m).2 = min (m / (period % 65536)) 65535) ∧
    (∀ period m : Nat, period ≠ 0 → period % 65536 = 0 →
      (Scheduler.isrTicks period m).2 = min m 65535) := by
  refine ⟨?_, ?_, ?_⟩
  · intro ts fn period h1 h2 h3
    simp [Scheduler.scheduler_register_task, h1, h2, Nat.not_le.mpr h3]
  · intro period m _ h2
    rw [Scheduler.isrTicks_pos period h2 m]
  · intro period m _ h2
    rw [Scheduler.isrTicks_multiple period h2 m]

/-- Witness for `period_truncation_16bit`: a period of 65546 ms is accepted
by registration and fires every 10 ticks (3 pendings after 30 ticks), and a
period of exactly 65536 ms fires on every tick (3 pendings after 3 ticks). -/
theorem period_truncation_16bit_witness :
    (Scheduler.scheduler_register_task [] 1 65546).1 = 0 ∧
    (Scheduler.isrTicks 65546 30).2 = min (30 / (65546 % 65536)) 65535 ∧
    (Scheduler.isrTicks 65536 3).2 = min 3 65535 :=
  ⟨period_truncation_16bit.1 [] 1 65546 (by decide) (by decide) (by decide),
   period_truncation_16bit.2.1 65546 30 (by decide) (by decide),
   period_truncation_16bit.2.2 65536 3 (by decide) (by decide)⟩

namespace TimeSlices

/-- Task descriptor of time_slices.c (`task_t`): function pointer (0 = NULL),
period, slice and the `uint16_t` pending counter. -/
structure Task where
  fn : Nat
  period_ms : Nat
  slice_ms : Nat
  pending : Nat
deriving DecidableEq, Repr

/-- Embedding of `Scheduler_AddTask` from time_slices.c lines 165-178:
reject a null callable, a zero period, or a full table; `slice_ms` is stored
but never validated against `period_ms`. -/
def Scheduler_AddTask (ts : List Task) (fn period_ms slice_ms : Nat) : Int × List Task :=
  if fn = 0 ∨ period_ms = 0 ∨ 8 ≤ ts.length then (-1, ts)
  else (0, ts ++ [⟨fn, period_ms, slice_ms, 0⟩])

end TimeSlices

/-- C6 counterexample.  The claim says registration returns `err_invalid`
when `slice_ms > period_ms` and when the callable is null: but
`Scheduler_AddTask` (time_slices.c lines 165-178) accepts a task with
`slice_ms = 2 > period_ms = 1` and returns success (0), and
`scheduler_register_task` of phase_offset.c lines 67-77 accepts a null
callable and a zero period, also returning success. -/
theorem registration_accepts_invalid_cex :
    (TimeSlices.Scheduler_AddTask [] 1 1 2).1 = 0 ∧
    (TimeSlices.Scheduler_AddTask [] 1 1 2).2 = [⟨1, 1, 2, 0⟩] ∧
    (PhaseOffset.scheduler_register_task [] 0 0 5 7).1 = 0 := by
  refine ⟨rfl, rfl, rfl⟩

/-- C6 (amended): Registration error contract as implemented.  The
pending-counter registrations (scheduler.c lines 40-48, time_slices.c lines
165-178) return -1 exactly when the callable is null, the period is zero,
or the table already holds MAX_TASKS = 8 descriptors (one shared error
value, and no `slice_ms > period_ms` check); the phase-offset registration
(phase_offset.c lines 67-77) returns -1 exactly when the table is full.  On
every rejection the table is unchanged; otherwise the call returns 0 and
appends the descriptor. -/
theorem registration_error_contract :
    (∀ (ts : List Scheduler.Task) (fn p : Nat),
      ((Scheduler.scheduler_register_task ts fn p).1 = -1 ↔
        fn = 0 ∨ p = 0 ∨ 8 ≤ ts.length) ∧
      ((Scheduler.scheduler_register_task ts fn p).1 = -1 →
        (Scheduler.scheduler_register_task ts fn p).2 = ts) ∧
      (¬(fn = 0 ∨ p = 0 ∨ 8 ≤ ts.length) →
        Scheduler.scheduler_register_task ts fn p = (0, ts ++ [⟨fn, p, 0⟩]))) ∧
    (∀ (ts : List TimeSlices.Task) (fn p s : Nat),
      ((TimeSlices.Scheduler_AddTask ts fn p s).1 = -1 ↔
        fn = 0 ∨ p = 0 ∨ 8 ≤ ts.length) ∧
      ((TimeSlices.Scheduler_AddTask ts fn p s).1 = -1 →
        (TimeSlices.Scheduler_AddTask ts fn p s).2 = ts) ∧
      (¬(fn = 0 ∨ p = 0 ∨ 8 ≤ ts.length) →
        TimeSlices.Scheduler_AddTask ts fn p s = (0, ts ++ [⟨fn, p, s, 0⟩]))) ∧
    (∀ (ts : List PhaseOffset.Task) (fn p s ph : Nat),
      ((PhaseOffset.scheduler_register_task ts fn p s ph).1 = -1 ↔ 8 ≤ ts.length) ∧
      ((PhaseOffset.scheduler_register_task ts fn p s ph).1 = -1 →
        (PhaseOffset.scheduler_register_task ts fn p s ph).2 = ts) ∧
      (ts.length < 8 →
        PhaseOffset.scheduler_register_task ts fn p s ph = (0, ts ++ [⟨fn, p, s, ph, ph⟩]))) := by
  refine ⟨?_, ?_, ?_⟩
  · intro ts fn p
    by_cases hc : fn = 0 ∨ p = 0 ∨ 8 ≤ ts.length
    · simp [Scheduler.scheduler_register_task, hc]
    · simp [Scheduler.scheduler_register_task, hc]
  · intro ts fn p s
    by_cases hc : fn = 0 ∨ p = 0 ∨ 8 ≤ ts.length
    · simp [TimeSlices.Scheduler_AddTask, hc]
    · simp [TimeSlices.Scheduler_AddTask, hc]
  · intro ts fn p s ph
    by_cases hc : 8 ≤ ts.length
    · simp [PhaseOffset.scheduler_register_task, hc]
    · simp [PhaseOffset.scheduler_register_task, hc]

/-- Witness for `registration_error_contract`: a null callable is rejected
by scheduler.c's registration with the table unchanged, and a valid task is
appended by phase_offset.c's registration. -/
theorem registration_error_contract_witness :
    (Scheduler.scheduler_register_task [] 0 10).1 = -1 ∧
    (Scheduler.scheduler_register_task [] 0 10).2 = [] ∧
    TimeSlices.Scheduler_AddTask [] 3 10 2 = (0, [⟨3, 10, 2, 0⟩]) ∧
    PhaseOffset.scheduler_register_task [] 2 100 5 2 = (0, [⟨2, 100, 5, 2, 2⟩]) :=
  ⟨((registration_error_contract.1 [] 0 10).1).mpr (Or.inl rfl),
   (registration_error_contract.1 [] 0 10).2.1
     (((registration_error_contract.1 [] 0 10).1).mpr (Or.inl rfl)),
   (registration_error_contract.2.1 [] 3 10 2).2.2 (by decide),
   (registration_error_contract.2.2 [] 2 100 5 2).2.2 (by decide)⟩

namespace Generator

/-- Task descriptor of scheduler_generator.c (`task_def_t`): name (modelled
as a numeric id), `uint16_t` period, slice and computed offset, and the
function pointer. -/
structure TaskDef where
  name : Nat
  period_ms : Nat
  slice_ms : Nat
  offset_ms : Nat
  func : Nat
deriving DecidableEq, Repr

/-- Slot of scheduler_generator.c (`slot_t`): function pointer, `uint32_t`
start time and `uint16_t` duration. -/
structure Slot where
  func : Nat
  start_ms : Nat
  duration_ms : Nat
deriving DecidableEq, Repr

/-- Embedding of `add_task` (scheduler_generator.c lines 50-55): silently
ignore the call when the table is full, else append with `offset_ms = 0`. -/
def add_task (ts : List TaskDef) (name fn period slice : Nat) : List TaskDef :=
  if 8 ≤ ts.length then ts else ts ++ [⟨name, period, slice, 0, fn⟩]

/-- Euclid loop `while (b) { t = b; b = a % b; a = t; }` of
scheduler_generator.c lines 58-67, with a structural fuel argument; the
fuel `b` bounds the iteration count since `b` strictly decreases. -/
def gcd_cGo : Nat → Nat → Nat → Nat
  | 0, a, _ => a
  | fuel + 1, a, b => if b = 0 then a else gcd_cGo fuel b (a % b)

/-- Embedding of `gcd` (scheduler_generator.c lines 58-67). -/
def gcd_c (a b : Nat) : Nat := gcd_cGo b a b

/-- Embedding of `lcm` (scheduler_generator.c lines 69-72):
`a / gcd(a, b) * b` in wrapping `uint32_t` arithmetic. -/
def lcm_c (a b : Nat) : Nat :=
  a / gcd_c a b * b % 2 ^ 32

/-- Embedding of `compute_hyperperiod` (scheduler_generator.c lines 74-82):
returns 0 for an empty table, else folds `lcm` over the periods. -/
def compute_hyperperiod (ts : List TaskDef) : Nat :=
  match ts with
  | [] => 0
  | t :: rest => rest.foldl (fun h u => lcm_c h u.period_ms) t.period_ms

/-- Embedding of `run_scheduler` (scheduler_generator.c lines 177-192).  The
C computes `sys_ms % hyperperiod_ms`, which is undefined when
`hyperperiod_ms = 0`; that case is surfaced as `none`.  Otherwise the result
is the new `slot_idx` paired with the dispatched slot's function (if any).
Reading `schedule[0]` of an empty static array yields the zero-initialized
slot, modelled by `getD` with the zero slot. -/
def run_scheduler (schedule : List Slot) (hyperperiod_ms slot_idx sys_ms : Nat) :
    Option (Nat × Option Nat) :=
  let idx := if schedule.length ≤ slot_idx then 0 else slot_idx
  let s := schedule.getD idx ⟨0, 0, 0⟩
  if hyperperiod_ms = 0 then none
  else if sys_ms % hyperperiod_ms = s.start_ms then some (idx + 1, some s.func)
  else some (idx, none)

theorem lcm_c_zero_left (b : Nat) : lcm_c 0 b = 0 := by
  simp [lcm_c]

theorem foldl_lcm_zero (l : List TaskDef) :
    l.foldl (fun h u => lcm_c h u.period_ms) 0 = 0 := by
  induction l with
  | nil => rfl
  | cons t rest ih => simpa [lcm_c_zero_left] using ih

end Generator

/-- C10: Division-by-zero guard for the offline dispatcher.
`compute_hyperperiod` returns 0 on an empty table (part 1), in which case
`run_scheduler`'s `sys_ms % hyperperiod_ms` divides by zero — undefined
behaviour, surfaced as `none` (part 2); and a positive hyperperiod requires
that some task with a strictly positive period was registered (part 3), so
the modulo is well-defined only under that precondition. -/
theorem hyperperiod_zero_guard :
    Generator.compute_hyperperiod [] = 0 ∧
    (∀ idx sys : Nat, Generator.run_scheduler [] (Generator.compute_hyperperiod []) idx sys
      = none) ∧
    (∀ ts : List Generator.TaskDef, 0 < Generator.compute_hyperperiod ts →
      ∃ t ∈ ts, 0 < t.period_ms) := by
  refine ⟨rfl, fun idx sys => rfl, ?_⟩
  intro ts hpos
  by_contra hno
  push_neg at hno
  rcases ts with _ | ⟨t, rest⟩
  · simp [Generator.compute_hyperperiod] at hpos
  · have ht : t.period_ms = 0 := by
      have := hno t (List.mem_cons_self t rest)
      omega
    rw [Generator.compute_hyperperiod] at hpos
    rw [ht, Generator.foldl_lcm_zero] at hpos
    exact absurd hpos (by omega)

/-- Witness for `hyperperiod_zero_guard`: with one registered task of
period 5, the hyperperiod is 5 > 0 and some task has a positive period. -/
theorem hyperperiod_zero_guard_witness :
    ∃ t ∈ [(⟨1, 5, 2, 0, 7⟩ : Generator.TaskDef)], 0 < t.period_ms :=
  hyperperiod_zero_guard.2.2 [⟨1, 5, 2, 0, 7⟩] (by decide)

namespace Generator

/-- In-place swap `tmp = a[i]; a[i] = a[j]; a[j] = tmp` on a list, as used by
both sort loops of scheduler_generator.c (lines 95-97 and 136-138). -/
def swapL (l : List α) (i j : Nat) (d : α) : List α :=
  (l.set i (l.getD j d)).set j (l.getD i d)

/-- Inner loop `for (j = i + 1; j < n; j++) if (cmp) swap(i, j)` of the
sorts in scheduler_generator.c (lines 91-99 and 132-140), with `c a[j] a[i]`
the swap condition.  The fuel argument counts the remaining iterations
`n - j`, so the recursion is structural. -/
def ssInnerGo (c : α → α → Bool) (d : α) : Nat → List α → Nat → Nat → List α
  | 0, l, _, _ => l
  | fuel + 1, l, i, j =>
      if j < l.length then
        ssInnerGo c d fuel (if c (l.getD j d) (l.getD i d) then swapL l i j d else l) i (j + 1)
      else l

/-- Outer loop `for (i = 0; i < n - 1; i++)` of the same sorts. -/
def ssOuterGo (c : α → α → Bool) (d : α) : Nat → List α → Nat → List α
  | 0, l, _ => l
  | fuel + 1, l, i =>
      if i + 1 < l.length then
        ssOuterGo c d fuel (ssInnerGo c d (l.length - (i + 1)) l i (i + 1)) (i + 1)
      else l

/-- The complete nested-loop swap sort of scheduler_generator.c, generic in
the swap condition `c` (period-descending for `compute_offsets`,
start-ascending for `build_schedule`). -/
def selSort (c : α → α → Bool) (d : α) (l : List α) : List α :=
  ssOuterGo c d l.length l 0

/-- Structural description of one pass of the inner loop: scan the suffix
comparing each element against the current front, swapping the front out
into the scanned position when beaten.  Returns the final front and the
suffix left behind. -/
def selectFront (c : α → α → Bool) : α → List α → α × List α
  | x, [] => (x, [])
  | x, y :: ys =>
      if c y x then
        ((selectFront c y ys).1, x :: (selectFront c y ys).2)
      else
        ((selectFront c x ys).1, y :: (selectFront c x ys).2)

theorem selectFront_snd_length (c : α → α → Bool) :
    ∀ (l : List α) (x : α), ((selectFront c x l).2).length = l.length := by
  intro l
  induction l with
  | nil => intro x; rfl
  | cons y ys ih =>
      intro x
      rw [selectFront]
      split <;> simp [ih]

/-- Structural description of the whole sort: repeatedly select a front
element for the head and recurse on the remainder. -/
def selSortF (c : α → α → Bool) : List α → List α
  | [] => []
  | x :: xs => (selectFront c x xs).1 :: selSortF c (selectFront c x xs).2
termination_by l => l.length
decreasing_by simp only [selectFront_snd_length, List.length_cons]; omega

theorem swapL_length (l : List α) (i j : Nat) (d : α) :
    (swapL l i j d).length = l.length := by
  simp [swapL]

theorem getD_append_mid (pre : List α) (x : α) (suf : List α) (d : α) :
    (pre ++ x :: suf).getD pre.length d = x := by
  induction pre with
  | nil => rfl
  | cons a t ih => simpa using ih

theorem set_append_mid (pre : List α) (x v : α) (suf : List α) :
    (pre ++ x :: suf).set pre.length v = pre ++ v :: suf := by
  induction pre with
  | nil => rfl
  | cons a t ih => simp [ih]

theorem swapL_mid (pre mid suf : List α) (x y d : α) :
    swapL (pre ++ x :: (mid ++ y :: suf)) pre.length (pre ++ x :: mid).length d
      = pre ++ y :: (mid ++ x :: suf) := by
  have hassoc : pre ++ x :: (mid ++ y :: suf) = (pre ++ x :: mid) ++ y :: suf := by simp
  have hg1 : (pre ++ x :: (mid ++ y :: suf)).getD pre.length d = x :=
    getD_append_mid pre x (mid ++ y :: suf) d
  have hg2 : (pre ++ x :: (mid ++ y :: suf)).getD (pre ++ x :: mid).length d = y := by
    rw [hassoc]
    exact getD_append_mid (pre ++ x :: mid) y suf d
  rw [swapL, hg1, hg2, set_append_mid pre x y (mid ++ y :: suf)]
  have hassoc2 : pre ++ y :: (mid ++ y :: suf) = (pre ++ y :: mid) ++ y :: suf := by simp
  have hlen : (pre ++ x :: mid).length = (pre ++ y :: mid).length := by simp
  rw [hassoc2, hlen, set_append_mid (pre ++ y :: mid) y x suf]
  simp

theorem ssInnerGo_eq_selectFront (c : α → α → Bool) (d : α) :
    ∀ (suf processed pre : List α) (x : α),
      ssInnerGo c d suf.length (pre ++ x :: (processed ++ suf)) pre.length
          (pre ++ x :: processed).length
        = pre ++ (selectFront c x suf).1 :: (processed ++ (selectFront c x suf).2) := by
  intro suf
  induction suf with
  | nil =>
      intro processed pre x
      simp [ssInnerGo, selectFront]
  | cons y ys ih =>
      intro processed pre x
      have hcond : (pre ++ x :: processed).length
          < (pre ++ x :: (processed ++ y :: ys)).length := by
        simp
      simp only [List.length_cons]
      rw [ssInnerGo, if_pos hcond]
      have hgj : (pre ++ x :: (processed ++ y :: ys)).getD (pre ++ x :: processed).length d
          = y := by
        have hassoc : pre ++ x :: (processed ++ y :: ys) = (pre ++ x :: processed) ++ y :: ys := by
          simp
        rw [hassoc]
        exact getD_append_mid _ y ys d
      have hgi : (pre ++ x :: (processed ++ y :: ys)).getD pre.length d = x :=
        getD_append_mid pre x (processed ++ y :: ys) d
      rw [hgj, hgi]
      cases hxy : c y x
      · rw [if_neg (by simp [hxy])]
        have hidx : (pre ++ x :: processed).length + 1 = (pre ++ x :: (processed ++ [y])).length := by
          simp
          omega
        have hlist : pre ++ x :: (processed ++ y :: ys) = pre ++ x :: ((processed ++ [y]) ++ ys) := by
          simp
        rw [hidx, hlist, ih (processed ++ [y]) pre x]
        rw [selectFront, if_neg (by simp [hxy])]
        simp
      · rw [if_pos rfl]
        rw [swapL_mid pre processed ys x y d]
        have hidx : (pre ++ x :: processed).length + 1 = (pre ++ y :: (processed ++ [x])).length := by
          simp
          omega
        have hlist : pre ++ y :: (processed ++ x :: ys) = pre ++ y :: ((processed ++ [x]) ++ ys) := by
          simp
        rw [hidx, hlist, ih (processed ++ [x]) pre y]
        rw [selectFront, if_pos hxy]
        simp

theorem ssOuterGo_eq_selSortF (c : α → α → Bool) (d : α) :
    ∀ (n : Nat) (suf pre : List α), suf.length ≤ n →
      ssOuterGo c d suf.length (pre ++ suf) pre.length = pre ++ selSortF c suf := by
  intro n
  induction n with
  | zero =>
      intro suf pre h
      have hnil : suf = [] := List.eq_nil_of_length_eq_zero (by omega)
      subst hnil
      simp [ssOuterGo, selSortF]
  | succ n ih =>
      intro suf pre h
      rcases suf with _ | ⟨x, rest⟩
      · simp [ssOuterGo, selSortF]
      rcases rest with _ | ⟨y, rest⟩
      · simp only [List.length_cons, List.length_nil, Nat.zero_add]
        rw [ssOuterGo, if_neg (by simp)]
        simp [selSortF, selectFront]
      · simp only [List.length_cons]
        rw [ssOuterGo, if_pos (by simp)]
        have hfuel : (pre ++ x :: y :: rest).length - (pre.length + 1) = (y :: rest).length := by
          simp
          omega
        have hlist : pre ++ x :: y :: rest = pre ++ x :: ([] ++ (y :: rest)) := by simp
        have hidx : pre.length + 1 = (pre ++ x :: ([] : List α)).length := by simp
        rw [hfuel, hlist, hidx, ssInnerGo_eq_selectFront c d (y :: rest) [] pre x]
        have hlist2 : pre ++ (selectFront c x (y :: rest)).1 ::
              ([] ++ (selectFront c x (y :: rest)).2)
            = (pre ++ [(selectFront c x (y :: rest)).1]) ++ (selectFront c x (y :: rest)).2 := by
          simp
        have hidx2 : (pre ++ x :: ([] : List α)).length + 1
            = (pre ++ [(selectFront c x (y :: rest)).1]).length + 1 := by simp
        have hfuel2 : rest.length + 1 + 1 - 1 = (selectFront c x (y :: rest)).2.length := by
          rw [selectFront_snd_length]
          simp
        have harg : rest.length + 1 = (selectFront c x (y :: rest)).2.length := by
          rw [selectFront_snd_length]
          simp
        rw [hlist2]
        have hidx3 : (pre ++ x :: ([] : List α)).length
            = (pre ++ [(selectFront c x (y :: rest)).1]).length := by simp
        rw [hidx3, harg,
          ih ((selectFront c x (y :: rest)).2) (pre ++ [(selectFront c x (y :: rest)).1])
            (by rw [selectFront_snd_length]; simp at h ⊢; omega)]
        rw [selSortF]
        simp

theorem selSort_eq_selSortF (c : α → α → Bool) (d : α) (l : List α) :
    selSort c d l = selSortF c l := by
  have h := ssOuterGo_eq_selSortF c d l.length l [] le_rfl
  simpa [selSort] using h

theorem selectFront_cons_perm (c : α → α → Bool) :
    ∀ (l : List α) (x : α),
      List.Perm ((selectFront c x l).1 :: (selectFront c x l).2) (x :: l) := by
  intro l
  induction l with
  | nil => intro x; simp [selectFront]
  | cons y ys ih =>
      intro x
      rw [selectFront]
      split
      · refine List.Perm.trans (List.Perm.swap x _ _) ?_
        exact (ih y).cons x
      · refine List.Perm.trans (List.Perm.swap y _ _) ?_
        refine List.Perm.trans ((ih x).cons y) ?_
        exact List.Perm.swap x y ys

theorem selSortF_perm (c : α → α → Bool) :
    ∀ (n : Nat) (l : List α), l.length ≤ n → List.Perm (selSortF c l) l := by
  intro n
  induction n with
  | zero =>
      intro l h
      have hnil : l = [] := List.eq_nil_of_length_eq_zero (by omega)
      subst hnil
      simp [selSortF]
  | succ n ih =>
      intro l h
      rcases l with _ | ⟨x, xs⟩
      · simp [selSortF]
      · rw [selSortF]
        refine List.Perm.trans ?_ (selectFront_cons_perm c xs x)
        refine List.Perm.cons _ ?_
        refine ih _ ?_
        rw [selectFront_snd_length]
        simp at h
        omega

theorem selSortF_perm_all (c : α → α → Bool) (l : List α) :
    List.Perm (selSortF c l) l :=
  selSortF_perm c l.length l le_rfl

theorem c_irrefl (c : α → α → Bool) (hasym : ∀ x y, c x y = true → c y x = false) (x : α) :
    c x x = false := by
  cases hxx : c x x
  · rfl
  · have h2 := hasym x x hxx
    rw [hxx] at h2
    exact h2

theorem selectFront_front (c : α → α → Bool)
    (hasym : ∀ x y, c x y = true → c y x = false)
    (htrans : ∀ x y z, c x y = false → c y z = false → c x z = false) :
    ∀ (l : List α) (x : α), c x (selectFront c x l).1 = false := by
  intro l
  induction l with
  | nil => intro x; rw [selectFront]; exact c_irrefl c hasym x
  | cons y ys ih =>
      intro x
      rw [selectFront]
      cases hxy : c y x
      · rw [if_neg (by simp [hxy])]
        exact ih x
      · rw [if_pos rfl]
        exact htrans x y _ (hasym y x hxy) (ih y)

theorem selectFront_max (c : α → α → Bool)
    (hasym : ∀ x y, c x y = true → c y x = false)
    (htrans : ∀ x y z, c x y = false → c y z = false → c x z = false) :
    ∀ (l : List α) (x z : α), z ∈ (selectFront c x l).2 →
      c z (selectFront c x l).1 = false := by
  intro l
  induction l with
  | nil =>
      intro x z hz
      rw [selectFront] at hz
      simp at hz
  | cons y ys ih =>
      intro x z hz
      rw [selectFront] at hz ⊢
      cases hxy : c y x
      · rw [if_neg (by simp [hxy])] at hz ⊢
        have hz' : z ∈ y :: (selectFront c x ys).2 := hz
        rcases List.mem_cons.mp hz' with rfl | hmem
        · show c z (selectFront c x ys).1 = false
          exact htrans z x _ hxy (selectFront_front c hasym htrans ys x)
        · exact ih x z hmem
      · rw [if_pos hxy] at hz
        rw [if_pos rfl]
        have hz' : z ∈ x :: (selectFront c y ys).2 := hz
        rcases List.mem_cons.mp hz' with rfl | hmem
        · show c z (selectFront c y ys).1 = false
          exact htrans z y _ (hasym y z hxy) (selectFront_front c hasym htrans ys y)
        · exact ih y z hmem

theorem selSortF_pairwise (c : α → α → Bool)
    (hasym : ∀ x y, c x y = true → c y x = false)
    (htrans : ∀ x y z, c x y = false → c y z = false → c x z = false) :
    ∀ (n : Nat) (l : List α), l.length ≤ n →
      List.Pairwise (fun a b => c b a = false) (selSortF c l) := by
  intro n
  induction n with
  | zero =>
      intro l h
      have hnil : l = [] := List.eq_nil_of_length_eq_zero (by omega)
      subst hnil
      simp [selSortF]
  | succ n ih =>
      intro l h
      rcases l with _ | ⟨x, xs⟩
      · simp [selSortF]
      · rw [selSortF]
        refine List.Pairwise.cons ?_ (ih _ ?_)
        · intro b hb
          have hb' : b ∈ (selectFront c x xs).2 :=
            (selSortF_perm_all c _).mem_iff.mp hb
          exact selectFront_max c hasym htrans xs x b hb'
        · rw [selectFront_snd_length]
          simp at h
          omega

theorem selSort_perm (c : α → α → Bool) (d : α) (l : List α) :
    List.Perm (selSort c d l) l := by
  rw [selSort_eq_selSortF]
  exact selSortF_perm_all c l

theorem selSort_pairwise (c : α → α → Bool) (d : α)
    (hasym : ∀ x y, c x y = true → c y x = false)
    (htrans : ∀ x y z, c x y = false → c y z = false → c x z = false)
    (l : List α) :
    List.Pairwise (fun a b => c b a = false) (selSort c d l) := by
  rw [selSort_eq_selSortF]
  exact selSortF_pairwise c hasym htrans l.length l le_rfl

end Generator

namespace Generator

/-- Swap condition of the task sort in `compute_offsets`
(scheduler_generator.c line 93): `tasks[j].period_ms > tasks[i].period_ms`. -/
def taskSwapCond (u v : TaskDef) : Bool := decide (v.period_ms < u.period_ms)

/-- Zero task descriptor, standing for the zero-initialized static array
entries; it is only used as the out-of-range default of `getD`. -/
def taskDefault : TaskDef := ⟨0, 0, 0, 0, 0⟩

/-- Offset-assignment loop of `compute_offsets` (scheduler_generator.c lines
102-106): walk the (sorted) table with the `uint16_t` accumulator
`accumulated_slice`, set `offset_ms = accumulated_slice % period_ms`, then
add `slice_ms`. -/
def assignOffsetsGo (acc : Nat) : List TaskDef → List TaskDef
  | [] => []
  | t :: rest =>
      { t with offset_ms := acc % t.period_ms } ::
        assignOffsetsGo ((acc + t.slice_ms) % 65536) rest

/-- Embedding of `compute_offsets` (scheduler_generator.c lines 85-107):
sort the table by period descending with the nested swap loops, then assign
offsets with the accumulator. -/
def compute_offsets (ts : List TaskDef) : List TaskDef :=
  assignOffsetsGo 0 (selSort taskSwapCond taskDefault ts)

theorem taskSwapCond_asym (x y : TaskDef) :
    taskSwapCond x y = true → taskSwapCond y x = false := by
  simp [taskSwapCond]
  omega

theorem taskSwapCond_negtrans (x y z : TaskDef) :
    taskSwapCond x y = false → taskSwapCond y z = false → taskSwapCond x z = false := by
  simp [taskSwapCond]
  omega

theorem assignOffsetsGo_getD :
    ∀ (i : Nat) (l : List TaskDef) (acc : Nat), acc < 65536 → i < l.length →
      (assignOffsetsGo acc l).getD i taskDefault =
        { l.getD i taskDefault with
          offset_ms :=
            ((acc + ((l.take i).map TaskDef.slice_ms).sum) % 65536)
              % (l.getD i taskDefault).period_ms } := by
  intro i
  induction i with
  | zero =>
      intro l acc hacc hlen
      rcases l with _ | ⟨t, rest⟩
      · simp at hlen
      · simp [assignOffsetsGo, Nat.mod_eq_of_lt hacc]
  | succ n ih =>
      intro l acc hacc hlen
      rcases l with _ | ⟨t, rest⟩
      · simp at hlen
      · simp only [assignOffsetsGo, List.getD_cons_succ, List.take_succ_cons,
          List.map_cons, List.sum_cons]
        rw [ih rest ((acc + t.slice_ms) % 65536) (Nat.mod_lt _ (by omega))
          (by simpa using hlen)]
        have hmods : ∀ s : Nat,
            ((acc + t.slice_ms) % 65536 + s) % 65536 = (acc + (t.slice_ms + s)) % 65536 := by
          intro s
          rw [Nat.mod_add_mod]
          congr 1
          omega
        rw [hmods]

end Generator

/-- C8 (amended): `compute_offsets` sorts the task table by period
descending — but the swap-based sort does NOT keep equal-period tasks in
registration order — and then, walking the sorted order with the 16-bit
accumulator starting at 0, assigns each task
`offset_ms = acc mod period_ms` before adding its `slice_ms` to `acc`.
Formally: the sorted table is a permutation of the input, pairwise
descending by period, and entry `i` of the result carries the offset
`(sum of the first i sorted slices mod 2^16) mod period_i`. -/
theorem compute_offsets_sort_and_accumulate (ts : List Generator.TaskDef)
    (_hpos : ∀ t ∈ ts, 0 < t.period_ms) :
    List.Perm (Generator.selSort Generator.taskSwapCond Generator.taskDefault ts) ts ∧
    List.Pairwise (fun a b => b.period_ms ≤ a.period_ms)
      (Generator.selSort Generator.taskSwapCond Generator.taskDefault ts) ∧
    (∀ i : Nat, i < ts.length →
      (Generator.compute_offsets ts).getD i Generator.taskDefault =
        { (Generator.selSort Generator.taskSwapCond Generator.taskDefault ts).getD i
            Generator.taskDefault with
          offset_ms :=
            ((((Generator.selSort Generator.taskSwapCond Generator.taskDefault ts).take i).map
                Generator.TaskDef.slice_ms).sum % 65536)
              % ((Generator.selSort Generator.taskSwapCond Generator.taskDefault ts).getD i
                  Generator.taskDefault).period_ms }) := by
  refine ⟨Generator.selSort_perm _ _ ts, ?_, ?_⟩
  · have hp := Generator.selSort_pairwise Generator.taskSwapCond Generator.taskDefault
      Generator.taskSwapCond_asym Generator.taskSwapCond_negtrans ts
    refine hp.imp ?_
    intro a b hab
    simpa [Generator.taskSwapCond] using hab
  · intro i hi
    have hlen : i < (Generator.selSort Generator.taskSwapCond Generator.taskDefault ts).length := by
      rw [(Generator.selSort_perm Generator.taskSwapCond Generator.taskDefault ts).length_eq]
      exact hi
    have h := Generator.assignOffsetsGo_getD i
      (Generator.selSort Generator.taskSwapCond Generator.taskDefault ts) 0 (by omega) hlen
    simpa [Generator.compute_offsets] using h

/-- Witness for `compute_offsets_sort_and_accumulate` at the repository's
own task set (periods 10/50/100, slices 2/5/10, as registered in
scheduler_generator.c main). -/
theorem compute_offsets_sort_and_accumulate_witness :
    List.Perm
      (Generator.selSort Generator.taskSwapCond Generator.taskDefault
        [⟨1, 10, 2, 0, 1⟩, ⟨2, 50, 5, 0, 2⟩, ⟨3, 100, 10, 0, 3⟩])
      [⟨1, 10, 2, 0, 1⟩, ⟨2, 50, 5, 0, 2⟩, ⟨3, 100, 10, 0, 3⟩] ∧
    List.Pairwise (fun a b => b.period_ms ≤ a.period_ms)
      (Generator.selSort Generator.taskSwapCond Generator.taskDefault
        [⟨1, 10, 2, 0, 1⟩, ⟨2, 50, 5, 0, 2⟩, ⟨3, 100, 10, 0, 3⟩]) ∧
    (∀ i : Nat, i < ([⟨1, 10, 2, 0, 1⟩, ⟨2, 50, 5, 0, 2⟩,
        (⟨3, 100, 10, 0, 3⟩ : Generator.TaskDef)]).length →
      (Generator.compute_offsets
          [⟨1, 10, 2, 0, 1⟩, ⟨2, 50, 5, 0, 2⟩, ⟨3, 100, 10, 0, 3⟩]).getD i
          Generator.taskDefault =
        { (Generator.selSort Generator.taskSwapCond Generator.taskDefault
            [⟨1, 10, 2, 0, 1⟩, ⟨2, 50, 5, 0, 2⟩, ⟨3, 100, 10, 0, 3⟩]).getD i
            Generator.taskDefault with
          offset_ms :=
            ((((Generator.selSort Generator.taskSwapCond Generator.taskDefault
                  [⟨1, 10, 2, 0, 1⟩, ⟨2, 50, 5, 0, 2⟩, ⟨3, 100, 10, 0, 3⟩]).take i).map
                Generator.TaskDef.slice_ms).sum % 65536)
              % ((Generator.selSort Generator.taskSwapCond Generator.taskDefault
                  [⟨1, 10, 2, 0, 1⟩, ⟨2, 50, 5, 0, 2⟩, ⟨3, 100, 10, 0, 3⟩]).getD i
                  Generator.taskDefault).period_ms }) :=
  compute_offsets_sort_and_accumulate
    [⟨1, 10, 2, 0, 1⟩, ⟨2, 50, 5, 0, 2⟩, ⟨3, 100, 10, 0, 3⟩] (by decide)

/-- C8 counterexample.  With periods [2, 2, 3] registered as functions
[10, 11, 12], `compute_offsets` produces the function order [12, 11, 10]:
the two period-2 tasks have been reversed, while the claimed tie-break by
registration order demands [12, 10, 11].  The swap-based selection sort is
not stable. -/
theorem compute_offsets_unstable_cex :
    (Generator.compute_offsets
        [⟨1, 2, 1, 0, 10⟩, ⟨2, 2, 1, 0, 11⟩, ⟨3, 3, 1, 0, 12⟩]).map Generator.TaskDef.func
      = [12, 11, 10] ∧
    ([12, 11, 10] : List Nat) ≠ [12, 10, 11] := by
  refine ⟨by decide, by decide⟩

namespace Generator

/-- Start-ascending swap condition of the slot sort in `build_schedule`
(scheduler_generator.c line 134): `schedule[j].start_ms < schedule[i].start_ms`. -/
def slotSwapCond (u v : Slot) : Bool := decide (u.start_ms < v.start_ms)

/-- Zero slot, the value of the zero-initialized static `schedule` array. -/
def slotDefault : Slot := ⟨0, 0, 0⟩

/-- Guarded slot append of scheduler_generator.c lines 122-125: the slot is
stored only while `num_slots < MAX_SLOTS` (128); overflowing slots are
silently dropped. -/
def pushSlot (slots : List Slot) (s : Slot) : List Slot :=
  if slots.length < 128 then slots ++ [s] else slots

/-- Slot materialization for one task (scheduler_generator.c lines 115-127):
emit `hyperperiod / period` instances at `offset + n * period` (wrapping
`uint32_t` arithmetic). -/
def materializeTask (slots : List Slot) (t : TaskDef) (hyper : Nat) : List Slot :=
  (List.range (hyper / t.period_ms)).foldl
    (fun acc n => pushSlot acc ⟨t.func, (t.offset_ms + n * t.period_ms) % 2 ^ 32, t.slice_ms⟩)
    slots

/-- Embedding of `build_schedule` (scheduler_generator.c lines 110-142):
compute the hyperperiod, materialize the capped slot table, and sort it by
`start_ms` with the nested swap loops.  The C function returns `void`: the
result here is the final `(hyperperiod_ms, schedule)` state, and no error
is ever reported. -/
def build_schedule (ts : List TaskDef) : Nat × List Slot :=
  let hyper := compute_hyperperiod ts
  let raw := ts.foldl (fun acc t => materializeTask acc t hyper) []
  (hyper, selSort slotSwapCond slotDefault raw)

theorem pushSlot_length (slots : List Slot) (s : Slot) (h : slots.length ≤ 128) :
    (pushSlot slots s).length = min (slots.length + 1) 128 := by
  rw [pushSlot]
  split
  · simp
    omega
  · omega

theorem foldl_pushSlot_length (f : Nat → Slot) :
    ∀ (xs : List Nat) (slots : List Slot), slots.length ≤ 128 →
      (xs.foldl (fun acc n => pushSlot acc (f n)) slots).length
        = min (slots.length + xs.length) 128 := by
  intro xs
  induction xs with
  | nil =>
      intro slots h
      simp
      omega
  | cons x rest ih =>
      intro slots h
      simp only [List.foldl_cons, List.length_cons]
      rw [ih (pushSlot slots (f x)) (by rw [pushSlot_length _ _ h]; omega)]
      rw [pushSlot_length _ _ h]
      omega

theorem materializeTask_length (slots : List Slot) (t : TaskDef) (hyper : Nat)
    (h : slots.length ≤ 128) :
    (materializeTask slots t hyper).length
      = min (slots.length + hyper / t.period_ms) 128 := by
  rw [materializeTask,
    foldl_pushSlot_length
      (fun n => ⟨t.func, (t.offset_ms + n * t.period_ms) % 2 ^ 32, t.slice_ms⟩)
      (List.range (hyper / t.period_ms)) slots h,
    List.length_range]

theorem materialize_length (hyper : Nat) :
    ∀ (ts : List TaskDef) (slots : List Slot), slots.length ≤ 128 →
      (ts.foldl (fun acc t => materializeTask acc t hyper) slots).length
        = min (slots.length + (ts.map (fun t => hyper / t.period_ms)).sum) 128 := by
  intro ts
  induction ts with
  | nil =>
      intro slots h
      simp
      omega
  | cons t rest ih =>
      intro slots h
      simp only [List.foldl_cons, List.map_cons, List.sum_cons]
      rw [ih (materializeTask slots t hyper) (by rw [materializeTask_length _ _ _ h]; omega)]
      rw [materializeTask_length _ _ _ h]
      omega

theorem build_schedule_length (ts : List TaskDef) :
    (build_schedule ts).2.length
      = min ((ts.map (fun t => compute_hyperperiod ts / t.period_ms)).sum) 128 := by
  rw [build_schedule]
  have hperm := selSort_perm slotSwapCond slotDefault
    (ts.foldl (fun acc t => materializeTask acc t (compute_hyperperiod ts)) [])
  rw [hperm.length_eq]
  rw [materialize_length (compute_hyperperiod ts) ts [] (by simp)]
  simp

end Generator

/-- C7 (amended): `build_schedule` returns no status value at all
(the C function is `void`) and never fails.  On a table whose periods are
positive (the C divides by `period_ms`, so zero periods are undefined
behaviour), it stores exactly
`min (Sum_i hyperperiod / period_i) MAX_SLOTS` slots: when the materialized
slots would exceed `MAX_SLOTS = 128` the excess is silently dropped instead
of an `err_slot_table_full` error, overlapping slots are accepted without
an `err_schedule_conflict` check, and the hyperperiod wraps at 2^32 without
an `err_hyperperiod_too_large` check. -/
theorem build_schedule_slot_count (ts : List Generator.TaskDef)
    (_hpos : ∀ t ∈ ts, 0 < t.period_ms) :
    (Generator.build_schedule ts).2.length
      = min ((ts.map (fun t => Generator.compute_hyperperiod ts / t.period_ms)).sum) 128 :=
  Generator.build_schedule_length ts

/-- Witness for `build_schedule_slot_count` at the repository's own task set
(periods 10/50/100): the hyperperiod is 100 and the schedule holds
10 + 2 + 1 = 13 slots. -/
theorem build_schedule_slot_count_witness :
    (Generator.build_schedule
        [⟨1, 10, 2, 0, 1⟩, ⟨2, 50, 5, 0, 2⟩, ⟨3, 100, 10, 0, 3⟩]).2.length
      = min (([⟨1, 10, 2, 0, 1⟩, ⟨2, 50, 5, 0, 2⟩,
          (⟨3, 100, 10, 0, 3⟩ : Generator.TaskDef)].map
            (fun t => Generator.compute_hyperperiod
              [⟨1, 10, 2, 0, 1⟩, ⟨2, 50, 5, 0, 2⟩, ⟨3, 100, 10, 0, 3⟩] / t.period_ms)).sum)
          128 :=
  build_schedule_slot_count
    [⟨1, 10, 2, 0, 1⟩, ⟨2, 50, 5, 0, 2⟩, ⟨3, 100, 10, 0, 3⟩] (by decide)

/-- C7 counterexample.  With periods [1, 129] the hyperperiod is 129 and the
slot demand is 129 + 1 = 130 > 128, yet `build_schedule` reports no
`err_slot_table_full`: it silently stores 128 slots.  And with two period-1
tasks both at offset 0 the two sorted slots overlap
(`start_0 + duration_0 = 1 > start_1 = 0`), yet `build_schedule` reports no
`err_schedule_conflict`: it returns the overlapping schedule. -/
theorem build_schedule_no_error_cex :
    (([⟨1, 1, 1, 0, 21⟩, (⟨2, 129, 1, 0, 22⟩ : Generator.TaskDef)].map
        (fun t => Generator.compute_hyperperiod
          [⟨1, 1, 1, 0, 21⟩, ⟨2, 129, 1, 0, 22⟩] / t.period_ms)).sum = 130) ∧
    (Generator.build_schedule [⟨1, 1, 1, 0, 21⟩, ⟨2, 129, 1, 0, 22⟩]).2.length = 128 ∧
    (Generator.build_schedule [⟨1, 1, 1, 0, 31⟩, ⟨2, 1, 1, 0, 32⟩]).2
      = [⟨31, 0, 1⟩, ⟨32, 0, 1⟩] := by
  refine ⟨by decide, ?_, by decide⟩
  rw [Generator.build_schedule_length]
  decide

namespace Scheduler

/-- Program counter over the superloop of scheduler.c lines 137-179 (same
structure in time_slices.c lines 234-272), at the granularity of accesses
to the shared state. -/
inductive PC where
  | top
  | check
  | decide_ (have_work : Bool)
  | afterSleep
  | drain (i : Nat)
  | runTask (i : Nat) (cnt : Nat)
deriving DecidableEq

/-- Interleaved machine state: the registered periods, the ISR-local
`local_ms` accumulators, the shared pending counters, the superloop program
counter, the interrupt mask (GIE cleared), the LPM0 sleep flag, and the
latched-but-undelivered timer interrupt request. -/
structure Machine where
  periods : List Nat
  accs : List Nat
  pending : List Nat
  pc : PC
  masked : Bool
  sleeping : Bool
  latch : Bool
deriving DecidableEq

/-- The ISR body applied to every task (scheduler.c lines 101-109). -/
def isrAll : List Nat → List Nat → List Nat → List Nat × List Nat
  | a :: arest, p :: prest, q :: qrest =>
      ((isrTaskStep a p q).1 :: (isrAll arest prest qrest).1,
       (isrTaskStep a p q).2 :: (isrAll arest prest qrest).2)
  | _, _, _ => ([], [])

/-- Effect of a delivered timer interrupt: run the ISR over all tasks,
clear the latched request, and wake the CPU
(`__bic_SR_register_on_exit(LPM0_bits)`, scheduler.c line 112). -/
def isrDeliver (m : Machine) : Machine :=
  { m with accs := (isrAll m.accs m.pending m.periods).1,
           pending := (isrAll m.accs m.pending m.periods).2,
           latch := false, sleeping := false }

/-- The ready check of scheduler.c lines 147-149: `if (tasks[i].pending)`. -/
def anyPending (l : List Nat) : Bool := l.any (fun p => decide (p ≠ 0))

/-- One step of the interleaved execution.  `tick` latches a hardware timer
request at any instant; `deliver` runs the ISR whenever a request is
latched and interrupts are unmasked (including during sleep, which it
ends).  The remaining steps walk the superloop: mask (line 146), the masked
scan (147-149), the branch on `have_work` (150), the atomic
sleep-with-interrupts-enabled `__bis_SR_register(LPM0_bits | GIE)` (152),
the unmask (154), and the drain with its masked snapshot (160-175). -/
inductive Step : Machine → Machine → Prop where
  | tick (m : Machine) : Step m { m with latch := true }
  | deliver (m : Machine) (hl : m.latch = true) (hm : m.masked = false) :
      Step m (isrDeliver m)
  | mask (m : Machine) (hpc : m.pc = PC.top) (hs : m.sleeping = false) :
      Step m { m with masked := true, pc := PC.check }
  | scan (m : Machine) (hpc : m.pc = PC.check) (hs : m.sleeping = false) :
      Step m { m with pc := PC.decide_ (anyPending m.pending) }
  | skipSleep (m : Machine) (hpc : m.pc = PC.decide_ true) (hs : m.sleeping = false) :
      Step m { m with pc := PC.afterSleep }
  | goSleep (m : Machine) (hpc : m.pc = PC.decide_ false) (hs : m.sleeping = false) :
      Step m { m with sleeping := true, masked := false, pc := PC.afterSleep }
  | enable (m : Machine) (hpc : m.pc = PC.afterSleep) (hs : m.sleeping = false) :
      Step m { m with masked := false, pc := PC.drain 0 }
  | drainSnap (m : Machine) (i : Nat) (hpc : m.pc = PC.drain i) (hs : m.sleeping = false)
      (hi : i < m.pending.length) :
      Step m { m with pending := m.pending.set i 0,
                      pc := PC.runTask i (m.pending.getD i 0) }
  | drainDone (m : Machine) (i : Nat) (hpc : m.pc = PC.drain i) (hs : m.sleeping = false)
      (hi : m.pending.length ≤ i) :
      Step m { m with pc := PC.top }
  | runDone (m : Machine) (i cnt : Nat) (hpc : m.pc = PC.runTask i cnt)
      (hs : m.sleeping = false) :
      Step m { m with pc := PC.drain (i + 1) }

/-- State at scheduler start: zeroed accumulators and pending counters,
superloop at the top, interrupts enabled, awake, no pending request. -/
def initMachine (periods : List Nat) : Machine :=
  ⟨periods, List.replicate periods.length 0, List.replicate periods.length 0,
   PC.top, false, false, false⟩

/-- Reachability from scheduler start under arbitrary interleaving of the
superloop with tick arrivals and ISR deliveries. -/
def Reachable (periods : List Nat) (m : Machine) : Prop :=
  Relation.ReflTransGen Step (initMachine periods) m

/-- Inductive invariant: pending counters stay at or below the saturation
ceiling; the masked window from the scan to the sleep decision is really
masked; a negative scan result means the pendings were all zero and stay so
while masked; and the CPU is never asleep while work is pending. -/
def Inv (m : Machine) : Prop :=
  (∀ p ∈ m.pending, p ≤ 65535) ∧
  (m.pc = PC.check → m.masked = true) ∧
  (∀ hw, m.pc = PC.decide_ hw → m.masked = true ∧ (hw = false → ∀ p ∈ m.pending, p = 0)) ∧
  (m.sleeping = true → ∀ p ∈ m.pending, p = 0)

theorem isrTaskStep_le (acc p q : Nat) (h : p ≤ 65535) : (isrTaskStep acc p q).2 ≤ 65535 := by
  rw [isrTaskStep]
  split
  · split <;> simp <;> omega
  · simpa using h

theorem isrAll_le :
    ∀ (a p q : List Nat), (∀ x ∈ p, x ≤ 65535) → ∀ x ∈ (isrAll a p q).2, x ≤ 65535 := by
  intro a
  induction a with
  | nil => intro p q _ x hx; simp [isrAll] at hx
  | cons ah arest ih =>
      intro p q h x hx
      rcases p with _ | ⟨ph, pt⟩
      · simp [isrAll] at hx
      rcases q with _ | ⟨qh, qt⟩
      · simp [isrAll] at hx
      simp only [isrAll] at hx
      rcases List.mem_cons.mp hx with rfl | hmem
      · exact isrTaskStep_le ah ph qh (h ph (by simp))
      · exact ih pt qt (fun y hy => h y (by simp [hy])) x hmem

theorem anyPending_eq_false {l : List Nat} (h : anyPending l = false) : ∀ p ∈ l, p = 0 := by
  intro p hp
  have := List.any_eq_false.mp h p hp
  simpa using this

theorem mem_set_zero {l : List Nat} {i : Nat} {x : Nat} (hx : x ∈ l.set i 0) :
    x ∈ l ∨ x = 0 := List.mem_or_eq_of_mem_set hx

theorem inv_init (periods : List Nat) : Inv (initMachine periods) := by
  refine ⟨?_, ?_, ?_, ?_⟩
  · intro p hp
    have := List.eq_of_mem_replicate hp
    omega
  · intro h
    simp [initMachine] at h
  · intro hw h
    simp [initMachine] at h
  · intro h
    simp [initMachine] at h

theorem inv_step {m m' : Machine} (hstep : Step m m') (hinv : Inv m) : Inv m' := by
  obtain ⟨hbound, hcheck, hdec, hsleep⟩ := hinv
  cases hstep with
  | tick => exact ⟨hbound, hcheck, hdec, hsleep⟩
  | deliver hl hm =>
      refine ⟨isrAll_le m.accs m.pending m.periods hbound, ?_, ?_, ?_⟩
      · intro h
        exact absurd (hcheck h) (by simp [hm])
      · intro hw h
        exact absurd ((hdec hw h).1) (by simp [hm])
      · intro h
        simp [isrDeliver] at h
  | mask hpc hs =>
      refine ⟨hbound, fun _ => rfl, ?_, ?_⟩
      · intro hw h
        simp at h
      · intro h
        simp at h
        simp [h] at hs
  | scan hpc hs =>
      refine ⟨hbound, ?_, ?_, ?_⟩
      · intro h
        simp at h
      · intro hw h
        have hm := hcheck hpc
        refine ⟨hm, ?_⟩
        intro hwf
        have hany : anyPending m.pending = hw := by
          simpa using h
        intro p hp
        exact anyPending_eq_false (by rw [hany, hwf]) p hp
      · intro h
        simp at h
        simp [h] at hs
  | skipSleep hpc hs =>
      refine ⟨hbound, ?_, ?_, ?_⟩
      · intro h
        simp at h
      · intro hw h
        simp at h
      · intro h
        simp at h
        simp [h] at hs
  | goSleep hpc hs =>
      refine ⟨hbound, ?_, ?_, ?_⟩
      · intro h
        simp at h
      · intro hw h
        simp at h
      · intro _
        exact (hdec false hpc).2 rfl
  | enable hpc hs =>
      refine ⟨hbound, ?_, ?_, ?_⟩
      · intro h
        simp at h
      · intro hw h
        simp at h
      · intro h
        simp at h
        simp [h] at hs
  | drainSnap i hpc hs hi =>
      refine ⟨?_, ?_, ?_, ?_⟩
      · intro p hp
        simp at hp
        rcases mem_set_zero hp with hmem | rfl
        · exact hbound p hmem
        · omega
      · intro h
        simp at h
      · intro hw h
        simp at h
      · intro h
        simp at h
        simp [h] at hs
  | drainDone i hpc hs hi =>
      refine ⟨hbound, ?_, ?_, ?_⟩
      · intro h
        simp at h
      · intro hw h
        simp at h
      · intro h
        simp at h
        simp [h] at hs
  | runDone i cnt hpc hs =>
      refine ⟨hbound, ?_, ?_, ?_⟩
      · intro h
        simp at h
      · intro hw h
        simp at h
      · intro h
        simp at h
        simp [h] at hs

theorem reachable_inv {periods : List Nat} {m : Machine} (h : Reachable periods m) : Inv m := by
  induction h with
  | refl => exact inv_init periods
  | tail _ hstep ih => exact inv_step hstep ih

end Scheduler

/-- C2 (amended): Lost-wakeup prevention in the pending-counter superloops
(scheduler.c lines 146-154, time_slices.c lines 239-252).  In every
reachable state of the interleaved machine — ticks latching at arbitrary
instants and the ISR delivering whenever unmasked — the CPU is asleep only
when every task's pending counter is zero, and the whole window from the
masked scan to the sleep decision runs with interrupts masked, so no
unmasked instant separates the final no-work check from the atomic
`__bis_SR_register(LPM0_bits | GIE)`.  The phase-offset superloop of
phase_offset.c is NOT covered: its `have_work` check runs unmasked (see the
counterexample `phase_offset_lost_wakeup_cex`). -/
theorem sleep_implies_no_pending (periods : List Nat) (m : Scheduler.Machine)
    (h : Scheduler.Reachable periods m) :
    (m.sleeping = true → ∀ p ∈ m.pending, p = 0) ∧
    (∀ hw, m.pc = Scheduler.PC.decide_ hw → m.masked = true) := by
  have hinv := Scheduler.reachable_inv h
  exact ⟨hinv.2.2.2, fun hw hpc => (hinv.2.2.1 hw hpc).1⟩

/-- Witness for `sleep_implies_no_pending` at the start state of the
repository's configuration (periods 10/100/500). -/
theorem sleep_implies_no_pending_witness :
    ((Scheduler.initMachine [10, 100, 500]).sleeping = true →
      ∀ p ∈ (Scheduler.initMachine [10, 100, 500]).pending, p = 0) ∧
    (∀ hw, (Scheduler.initMachine [10, 100, 500]).pc = Scheduler.PC.decide_ hw →
      (Scheduler.initMachine [10, 100, 500]).masked = true) :=
  sleep_implies_no_pending [10, 100, 500] (Scheduler.initMachine [10, 100, 500])
    Relation.ReflTransGen.refl

/-- C3: Saturation invariant.  In every reachable state of the interleaved
machine no pending counter exceeds the ceiling 0xFFFF = 65535, and an ISR
increment arriving at the ceiling is discarded, leaving `pending`
unchanged (scheduler.c line 107, time_slices.c lines 202-205). -/
theorem pending_saturation_invariant (periods : List Nat) (m : Scheduler.Machine)
    (h : Scheduler.Reachable periods m) :
    (∀ p ∈ m.pending, p ≤ 65535) ∧
    (∀ acc q : Nat, (Scheduler.isrTaskStep acc 65535 q).2 = 65535) := by
  refine ⟨(Scheduler.reachable_inv h).1, ?_⟩
  intro acc q
  rw [Scheduler.isrTaskStep]
  split
  · simp
  · rfl

/-- Witness for `pending_saturation_invariant` at the start state of the
repository's configuration; in particular a tick at the ceiling changes
nothing. -/
theorem pending_saturation_invariant_witness :
    (∀ p ∈ (Scheduler.initMachine [10, 100, 500]).pending, p ≤ 65535) ∧
    (∀ acc q : Nat, (Scheduler.isrTaskStep acc 65535 q).2 = 65535) :=
  pending_saturation_invariant [10, 100, 500] (Scheduler.initMachine [10, 100, 500])
    Relation.ReflTransGen.refl

namespace PhaseOffset

/-- Program counter over the phase-offset superloop of phase_offset.c lines
109-138: loop top (`have_work = 0`), the masked read of `sys_ms` (lines
115-117, collapsed to one atomic step), the dispatch loop (lines 119-131),
and the sleep decision (lines 133-137). -/
inductive MPC where
  | top
  | readNow
  | dispatch (i : Nat)
  | sleepCheck
deriving DecidableEq

/-- Interleaved state of phase_offset.c: task periods and `next_run_ms`
values, the shared tick counter `sys_ms`, the loop-local `now_ms` snapshot
and `have_work` flag, the program counter, the interrupt mask, the LPM0
flag and the latched timer request. -/
structure MState where
  periods : List Nat
  next_runs : List Nat
  sys_ms : Nat
  now : Nat
  have_work : Bool
  pc : MPC
  masked : Bool
  sleeping : Bool
  latch : Bool
deriving DecidableEq

/-- One step of the interleaved execution of phase_offset.c.  The ISR
(lines 88-91) just increments `sys_ms` and wakes the CPU.  Crucially, the
superloop's `have_work` test and the `__bis_SR_register(LPM0_bits | GIE)`
at lines 133-137 run with interrupts ENABLED, so `deliver` may fire between
`dispatchEnd` and `sleepYes`. -/
inductive MStep : MState → MState → Prop where
  | tick (s : MState) : MStep s { s with latch := true }
  | deliver (s : MState) (hl : s.latch = true) (hm : s.masked = false) :
      MStep s { s with sys_ms := (s.sys_ms + 1) % 2 ^ 32, latch := false, sleeping := false }
  | top (s : MState) (hpc : s.pc = MPC.top) (hs : s.sleeping = false) :
      MStep s { s with have_work := false, pc := MPC.readNow }
  | readNow (s : MState) (hpc : s.pc = MPC.readNow) (hs : s.sleeping = false) :
      MStep s { s with now := s.sys_ms, pc := MPC.dispatch 0 }
  | dispatchDue (s : MState) (i : Nat) (hpc : s.pc = MPC.dispatch i)
      (hs : s.sleeping = false) (hi : i < s.next_runs.length)
      (hdue : dueTest s.now (s.next_runs.getD i 0) = true) :
      MStep s { s with
        next_runs := s.next_runs.set i
          ((s.next_runs.getD i 0 + s.periods.getD i 0) % 2 ^ 32),
        have_work := true, pc := MPC.dispatch (i + 1) }
  | dispatchNotDue (s : MState) (i : Nat) (hpc : s.pc = MPC.dispatch i)
      (hs : s.sleeping = false) (hi : i < s.next_runs.length)
      (hdue : dueTest s.now (s.next_runs.getD i 0) = false) :
      MStep s { s with pc := MPC.dispatch (i + 1) }
  | dispatchEnd (s : MState) (i : Nat) (hpc : s.pc = MPC.dispatch i)
      (hs : s.sleeping = false) (hi : s.next_runs.length ≤ i) :
      MStep s { s with pc := MPC.sleepCheck }
  | sleepYes (s : MState) (hpc : s.pc = MPC.sleepCheck) (hs : s.sleeping = false)
      (hw : s.have_work = false) :
      MStep s { s with sleeping := true, pc := MPC.top }
  | sleepNo (s : MState) (hpc : s.pc = MPC.sleepCheck) (hs : s.sleeping = false)
      (hw : s.have_work = true) :
      MStep s { s with pc := MPC.top }

/-- Start state with a single registered task of period 1 and phase offset
1 (so `next_run_ms = 1`), at `sys_ms = 0`. -/
def cexInit : MState :=
  ⟨[1], [1], 0, 0, false, MPC.top, false, false, false⟩

/-- State reached by the trace of `phase_offset_lost_wakeup_cex`: the CPU
is asleep at `sys_ms = 1` although the task became due at time 1. -/
def cexBad : MState :=
  ⟨[1], [1], 1, 0, false, MPC.top, false, true, false⟩

end PhaseOffset

/-- C2 counterexample.  The claim covers the phase-offset superloop
(phase_offset.c lines 133-137), but there the no-work check and the sleep
are separated by unmasked instants: the execution below reads `now = 0`,
finds the task (due at time 1) not yet due, then a tick arrives and the ISR
delivers `sys_ms = 1` BEFORE the sleep decision — the tick is neither
observed by the check nor does it wake the CPU, which goes to sleep in a
state where the task is due.  So the C2 claim, as stated over every
iteration of the superloop of both cited files, is false. -/
theorem phase_offset_lost_wakeup_cex :
    Relation.ReflTransGen PhaseOffset.MStep PhaseOffset.cexInit PhaseOffset.cexBad ∧
    PhaseOffset.cexBad.sleeping = true ∧
    dueTest PhaseOffset.cexBad.sys_ms (PhaseOffset.cexBad.next_runs.getD 0 0) = true := by
  refine ⟨?_, rfl, by decide⟩
  apply Relation.ReflTransGen.head (PhaseOffset.MStep.top _ rfl rfl)
  apply Relation.ReflTransGen.head (PhaseOffset.MStep.readNow _ rfl rfl)
  apply Relation.ReflTransGen.head
    (PhaseOffset.MStep.dispatchNotDue _ 0 rfl rfl (by decide) (by decide))
  apply Relation.ReflTransGen.head (PhaseOffset.MStep.dispatchEnd _ 1 rfl rfl (by decide))
  apply Relation.ReflTransGen.head (PhaseOffset.MStep.tick _)
  apply Relation.ReflTransGen.head (PhaseOffset.MStep.deliver _ rfl rfl)
  apply Relation.ReflTransGen.head (PhaseOffset.MStep.sleepYes _ rfl rfl rfl)
  exact Relation.ReflTransGen.refl
